import Mathlib

/-!
Verification development for the Label-Matching and Overlay-Composition
Engine of the UPRS pdf-highlighter repository, together with the visitors
API route.  The engine itself (azure_processor.py, pdf_utils.py) is
described by the repository documentation; its behaviour is modelled here
from the specification.  The visitors route is embedded directly from
src/api/visitors.js.
-/

namespace PdfHighlighter

/-- Text is modelled as a list of characters. -/
abbrev Text := List Char

/-- Bounding box in a stated coordinate convention. -/
structure Box where
  x : Int
  y : Int
  width : Int
  height : Int
deriving DecidableEq, Repr

/-- Modelled from the spec: the coordinate flip between top-left/y-down and
bottom-left/y-up conventions, y_new = page_height - y - height (section 3). -/
def flipBox (pageHeight : Int) (b : Box) : Box :=
  { b with y := pageHeight - b.y - b.height }

/-- A text line produced by the Layout Normalizer. -/
structure TextLine where
  text : Text
  box : Box
  pageIndex : Nat
deriving DecidableEq, Repr

/-- Lower-case every character. -/
def lowerText (s : Text) : Text := s.map Char.toLower

/-- Replace a whitespace character by a plain space. -/
def collapseChar (c : Char) : Char := if c.isWhitespace then ' ' else c

/-- Collapse runs of whitespace to a single space. -/
def squeezeWs : Text → Text
  | [] => []
  | [c] => [collapseChar c]
  | c :: d :: rest =>
    if c.isWhitespace && d.isWhitespace then squeezeWs (d :: rest)
    else collapseChar c :: squeezeWs (d :: rest)

/-- Modelled from the spec: label text normalisation, lower-cased and
whitespace-collapsed (section 4.2). -/
def normalizeText (s : Text) : Text := squeezeWs (lowerText s)

/-- Substring containment, as a boolean. -/
def containsSub (needle hay : Text) : Bool := decide (needle <:+: hay)

/-- All start positions at which needle occurs inside hay. -/
def occurrencePositions (needle hay : Text) : List Nat :=
  (List.range (hay.length + 1)).filter (fun i => decide (needle <+: hay.drop i))

/-- One entry of the synonym table: a canonical field key with its ordered
label phrasings. -/
structure SynEntry where
  key : Text
  phrasings : List Text
deriving DecidableEq, Repr

/-- Modelled from the spec: the SynonymTable, static configuration mapping
canonical field keys to ordered label phrasings (section 3). -/
abbrev SynonymTable := List SynEntry

/-- Modelled from the spec: the FillMap, caller-supplied mapping from
canonical field key to value string, keys unique (section 3). -/
abbrev FillMap := List (Text × Text)

/-- The result of resolving one FillMap key against the line set. -/
structure Match where
  fieldKey : Text
  line : TextLine
  matchedPhrase : Text
deriving DecidableEq, Repr

/-- The ordered phrasings recognised for a key; keys absent from the table
have no recognised phrasing. -/
def synonymsFor (table : SynonymTable) (key : Text) : List Text :=
  match table.find? (fun e => e.key == key) with
  | some e => e.phrasings
  | none => []

/-- A line matches when its normalised text contains some phrasing as a
substring. -/
def lineHasAnySyn (phrasings : List Text) (l : TextLine) : Bool :=
  phrasings.any (fun s => containsSub s (normalizeText l.text))

/-- Modelled from the spec: the Synonym Resolver for one key on one page,
section 4.2 — the first line in reading order whose normalised text contains
any synonym phrasing produces the Match, phrasings tried in declared order;
scanning stops once the key has a Match. -/
def resolveKey (key : Text) (phrasings : List Text) (lines : List TextLine) :
    Option Match :=
  (lines.find? (lineHasAnySyn phrasings)).bind (fun l =>
    (phrasings.find? (fun s => containsSub s (normalizeText l.text))).map (fun s =>
      { fieldKey := key, line := l, matchedPhrase := s }))

/-- Modelled from the spec: the Synonym Resolver over a whole page, one
attempt per FillMap entry; keys matching nothing are silently skipped
(section 4.2). -/
def resolvePage (table : SynonymTable) (fm : FillMap) (lines : List TextLine) :
    List Match :=
  fm.filterMap (fun kv => resolveKey kv.1 (synonymsFor table kv.1) lines)

/-- The instruction to draw text inside a box. -/
structure Placement where
  text : Text
  box : Box
deriving DecidableEq, Repr

/-- Modelled from the spec: the configurable constants of the Placement
Engine — gap size, right margin, nominal character width, line-height
increment, and the minimum remaining space before the right-margin fallback
triggers (sections 4.3 and 9). -/
structure PlacementConfig where
  gap : Int
  rightMargin : Int
  charWidth : Int
  lineHeight : Int
  minSpace : Int
deriving DecidableEq, Repr

/-- Estimated rendered width of a value at the nominal font size. -/
def estimatedWidth (cfg : PlacementConfig) (value : Text) : Int :=
  cfg.charWidth * value.length

/-- Modelled from the spec: the Placement Engine default policy (section
4.3) — the value goes immediately to the right of the label box, vertically
centred on it, offset by the gap plus the label width, its width clipped to
the space remaining before the right margin; a label too close to the right
margin falls back to placing the value directly below the label. -/
def placeValue (cfg : PlacementConfig) (pageWidth : Int) (value : Text)
    (label : Box) : Placement :=
  let est := estimatedWidth cfg value
  let xStart := label.x + label.width + cfg.gap
  let remaining := pageWidth - cfg.rightMargin - xStart
  if remaining < cfg.minSpace then
    { text := value,
      box := { x := label.x, y := label.y + label.height,
               width := min est (pageWidth - cfg.rightMargin - label.x),
               height := label.height } }
  else
    { text := value,
      box := { x := xStart, y := label.y, width := min est remaining,
               height := label.height } }

/-- Vertical ranges of two boxes intersect. -/
def vOverlap (a b : Box) : Bool :=
  decide (a.y < b.y + b.height) && decide (b.y < a.y + a.height)

/-- Horizontal ranges of two boxes intersect. -/
def hOverlap (a b : Box) : Bool :=
  decide (a.x < b.x + b.width) && decide (b.x < a.x + a.width)

/-- Two boxes overlap: same vertical band and intersecting horizontal
ranges. -/
def boxesOverlap (a b : Box) : Bool := vOverlap a b && hOverlap a b

/-- Shift a placement downward. -/
def shiftDown (dy : Int) (p : Placement) : Placement :=
  { p with box := { p.box with y := p.box.y + dy } }

/-- One step of the collision policy: a placement overlapping an earlier one
is shifted down by one line-height increment. -/
def placeNext (cfg : PlacementConfig) (acc : List Placement) (p : Placement) :
    List Placement :=
  if acc.any (fun q => boxesOverlap q.box p.box) then
    acc ++ [shiftDown cfg.lineHeight p]
  else acc ++ [p]

/-- Modelled from the spec: the best-effort collision policy of the
Placement Engine — in reading order, a placement that would overlap an
earlier one is shifted downward by one line-height increment (section 4.3). -/
def resolveCollisions (cfg : PlacementConfig) (ps : List Placement) :
    List Placement :=
  ps.foldl (placeNext cfg) []

/-- The value a FillMap holds for a key. -/
def lookupValue (fm : FillMap) (key : Text) : Text :=
  match fm.find? (fun kv => kv.1 == key) with
  | some kv => kv.2
  | none => []

/-- Modelled from the spec: the Placement Engine over one page — one
placement per match, then the collision policy (section 4.3). -/
def placePage (cfg : PlacementConfig) (pageWidth : Int) (fm : FillMap)
    (ms : List Match) : List Placement :=
  resolveCollisions cfg
    (ms.map (fun m => placeValue cfg pageWidth (lookupValue fm m.fieldKey) m.line.box))

/-- One visual occurrence of a highlight term. -/
structure HighlightBox where
  term : Text
  box : Box
  pageIndex : Nat
deriving DecidableEq, Repr

/-- Modelled from the spec: the monospaced-width approximation of the
sub-span of a line occupied by a match — horizontal extent proportional to
character offset and length, vertical extent the full line box (section
4.4). -/
def spanBox (lineBox : Box) (lineLen start len : Nat) : Box :=
  let n : Int := Int.ofNat (max lineLen 1)
  { x := lineBox.x + lineBox.width * Int.ofNat start / n,
    y := lineBox.y,
    width := lineBox.width * Int.ofNat len / n,
    height := lineBox.height }

/-- Modelled from the spec: the Highlight Locator on one line — one
HighlightBox per occurrence of the lower-cased term inside the lower-cased
line text (section 4.4). -/
def highlightLine (term : Text) (l : TextLine) : List HighlightBox :=
  (occurrencePositions (lowerText term) (lowerText l.text)).map (fun i =>
    { term := term, box := spanBox l.box l.text.length i term.length,
      pageIndex := l.pageIndex })

/-- Modelled from the spec: the Highlight Locator over the normalised line
sequence, every line and every term (section 4.4). -/
def locateHighlights (terms : List Text) (lines : List TextLine) :
    List HighlightBox :=
  lines.flatMap (fun l => terms.flatMap (fun t => highlightLine t l))

/-- A drawing command on a page surface; original page content is kept
abstract. -/
inductive DrawCmd where
  | highlightRect (box : Box)
  | textAt (s : Text) (box : Box)
  | original (token : Nat)
deriving DecidableEq, Repr

/-- A renderable page surface. -/
structure PageSurface where
  width : Int
  height : Int
  content : List DrawCmd
deriving DecidableEq, Repr

/-- The drawing command for one highlight box, flipped once into the render
convention. -/
def highlightCmd (pageHeight : Int) (h : HighlightBox) : DrawCmd :=
  .highlightRect (flipBox pageHeight h.box)

/-- The drawing command for one placement, flipped once into the render
convention. -/
def placementCmd (pageHeight : Int) (p : Placement) : DrawCmd :=
  .textAt p.text (flipBox pageHeight p.box)

/-- Modelled from the spec: the Overlay Compositor (section 4.5) — same
dimensions as the input, original content preserved beneath, highlights
drawn first, then filled text, each overlay box flipped exactly once. -/
def compositePage (pg : PageSurface) (hls : List HighlightBox)
    (pls : List Placement) : PageSurface :=
  { width := pg.width, height := pg.height,
    content := pg.content ++ hls.map (highlightCmd pg.height)
                ++ pls.map (placementCmd pg.height) }

/-- Per-page error kinds (section 7). -/
inductive PageErr where
  | renderFailure
deriving DecidableEq, Repr

/-- Per-document error kinds (section 7). -/
inductive DocErr where
  | malformedLayout
deriving DecidableEq, Repr

/-- A raw text unit from the external layout analysis; the position may be
missing. -/
structure RawUnit where
  text : Text
  pos : Option Box
  pageIndex : Nat
deriving DecidableEq, Repr

/-- Modelled from the spec: the Layout Normalizer on one unit — fails with
MalformedLayout when the unit lacks a usable position or its page index is
out of range (section 4.1). -/
def normalizeUnit (pageCount : Nat) (u : RawUnit) : Except DocErr TextLine :=
  match u.pos with
  | none => .error .malformedLayout
  | some b =>
    if u.pageIndex < pageCount then
      .ok { text := u.text, box := b, pageIndex := u.pageIndex }
    else .error .malformedLayout

/-- Modelled from the spec: the Layout Normalizer over a document — a
failure on any unit aborts the whole document (sections 4.1 and 7). -/
def normalizeDoc (pageCount : Nat) (us : List RawUnit) :
    Except DocErr (List TextLine) :=
  us.mapM (normalizeUnit pageCount)

/-- The shared read-only configuration threaded through processing. -/
structure DocConfig where
  table : SynonymTable
  fm : FillMap
  terms : List Text
  cfg : PlacementConfig
deriving Repr

/-- One document to process: one original surface per page (none when the
page surface cannot be composited) and the raw analysis units. -/
structure DocInput where
  surfaces : List (Option PageSurface)
  units : List RawUnit
deriving Repr

/-- The lines owned by one page. -/
def linesOnPage (lines : List TextLine) (i : Nat) : List TextLine :=
  lines.filter (fun l => l.pageIndex == i)

/-- Modelled from the spec: processing of one page — resolver, locator,
placement and compositor over that page only; a missing surface is a
RenderFailure aborting that page only (sections 4.5 and 7). -/
def processPage (dc : DocConfig) (lines : List TextLine) (i : Nat)
    (surf : Option PageSurface) : Except PageErr PageSurface :=
  match surf with
  | none => .error .renderFailure
  | some pg =>
    let ms := resolvePage dc.table dc.fm (linesOnPage lines i)
    let pls := placePage dc.cfg pg.width dc.fm ms
    let hls := locateHighlights dc.terms (linesOnPage lines i)
    .ok (compositePage pg hls pls)

/-- Process the pages of a document independently, numbering from i. -/
def processPages (dc : DocConfig) (lines : List TextLine) (i : Nat) :
    List (Option PageSurface) → List (Except PageErr PageSurface)
  | [] => []
  | s :: rest => processPage dc lines i s :: processPages dc lines (i + 1) rest

/-- The keys and terms requested but found nowhere in the document,
recorded as informational omissions (section 7). -/
def docOmissions (dc : DocConfig) (lines : List TextLine) : List Text :=
  (dc.fm.map Prod.fst).filter
    (fun k => (resolveKey k (synonymsFor dc.table k) lines).isNone)
  ++ dc.terms.filter
    (fun t => lines.all (fun l => !(containsSub (lowerText t) (lowerText l.text))))

/-- The per-document result: one entry per page, failed pages reported
alongside successful ones, plus the omission list. -/
structure DocResult where
  pages : List (Except PageErr PageSurface)
  omissions : List Text
deriving Repr

/-- Modelled from the spec: processing of one document — a Layout
Normalizer failure aborts the document, otherwise every page is processed
independently and per-page failures are isolated (sections 4.5 and 7). -/
def processDoc (dc : DocConfig) (d : DocInput) : Except DocErr DocResult :=
  match normalizeDoc d.surfaces.length d.units with
  | .error e => .error e
  | .ok lines =>
    .ok { pages := processPages dc lines 0 d.surfaces,
          omissions := docOmissions dc lines }

/-- Modelled from the spec: batch processing — each document processed
independently, a per-document failure aborts that document only (section
7). -/
def processBatch (dc : DocConfig) (docs : List DocInput) :
    List (Except DocErr DocResult) :=
  docs.map (processDoc dc)

/-- The response shape of the visitors route. -/
structure VisitorsResponse where
  status : Nat
  success : Bool
  logs : List Text
deriving DecidableEq, Repr

/-- JavaScript String.trim on a line. -/
def trimJs (l : Text) : Text :=
  ((l.dropWhile Char.isWhitespace).reverse.dropWhile Char.isWhitespace).reverse

/-- The non-empty lines of the log file, in file order: split on newline,
keep lines whose trimmed text is non-empty (src/api/visitors.js). -/
def visitorLogLines (content : Text) : List Text :=
  (content.splitOn '\n').filter (fun l => !(trimJs l).isEmpty)

/-- Shallow embedding of the route handler in src/api/visitors.js: on a
successful read, the last 100 non-empty lines, newest first; on a failed
read, HTTP 500 with success false. -/
def visitorsHandler (file : Option Text) : VisitorsResponse :=
  match file with
  | none => { status := 500, success := false, logs := [] }
  | some content =>
    let ls := visitorLogLines content
    { status := 200, success := true,
      logs := (ls.drop (ls.length - 100)).reverse }

/-! Helper lemmas -/

theorem occurrencePositions_ne_nil_iff (needle hay : Text) :
    occurrencePositions needle hay ≠ [] ↔ needle <:+: hay := by
  unfold occurrencePositions
  rw [ne_eq, List.filter_eq_nil_iff]
  push_neg
  constructor
  · rintro ⟨i, _, hp⟩
    rw [decide_eq_true_eq] at hp
    exact List.infix_iff_prefix_suffix.mpr ⟨hay.drop i, hp, List.drop_suffix i hay⟩
  · intro h
    obtain ⟨t, hpre, hsuf⟩ := List.infix_iff_prefix_suffix.mp h
    refine ⟨hay.length - t.length, ?_, ?_⟩
    · rw [List.mem_range]
      omega
    · rw [decide_eq_true_eq, ← List.suffix_iff_eq_drop.mp hsuf]
      exact hpre

theorem resolveKey_spec {key : Text} {ph : List Text} {ls : List TextLine}
    {m : Match} (h : resolveKey key ph ls = some m) :
    m.fieldKey = key ∧ lineHasAnySyn ph m.line = true
    ∧ ∃ pre post, ls = pre ++ m.line :: post
        ∧ ∀ l2 ∈ pre, lineHasAnySyn ph l2 = false := by
  unfold resolveKey at h
  cases hf : ls.find? (lineHasAnySyn ph) with
  | none => rw [hf] at h; cases h
  | some l =>
    rw [hf, Option.some_bind] at h
    cases hs : ph.find? (fun s => containsSub s (normalizeText l.text)) with
    | none => rw [hs] at h; cases h
    | some s =>
      rw [hs, Option.map_some', Option.some.injEq] at h
      subst h
      rw [List.find?_eq_some] at hf
      obtain ⟨hpl, pre, post, hsplit, hpre⟩ := hf
      refine ⟨rfl, hpl, pre, post, hsplit, ?_⟩
      intro l2 hl2
      have := hpre l2 hl2
      rwa [Bool.not_eq_true'] at this

theorem resolveKey_fieldKey {key : Text} {ph : List Text} {ls : List TextLine}
    {m : Match} (h : resolveKey key ph ls = some m) : m.fieldKey = key :=
  (resolveKey_spec h).1

theorem resolveKey_eq_none {key : Text} {ph : List Text} {ls : List TextLine}
    (h : ∀ l ∈ ls, lineHasAnySyn ph l = false) :
    resolveKey key ph ls = none := by
  unfold resolveKey
  rw [List.find?_eq_none.mpr]
  · rfl
  · intro x hx
    rw [h x hx]
    exact Bool.false_ne_true

theorem resolvePage_keys_sublist (t : SynonymTable) (fm : FillMap)
    (ls : List TextLine) :
    ((resolvePage t fm ls).map (fun m => m.fieldKey)).Sublist (fm.map Prod.fst) := by
  induction fm with
  | nil => simp [resolvePage]
  | cons kv fm ih =>
    rw [resolvePage, List.filterMap_cons]
    cases hr : resolveKey kv.1 (synonymsFor t kv.1) ls with
    | none =>
      rw [List.map_cons]
      exact (ih : _).cons _
    | some m =>
      rw [List.map_cons, List.map_cons, resolveKey_fieldKey hr]
      exact (ih : _).cons₂ _

theorem resolvePage_filter_key_eq_nil {t : SynonymTable} {fm : FillMap}
    {ls : List TextLine} {k : Text}
    (h : ∀ l ∈ ls, lineHasAnySyn (synonymsFor t k) l = false) :
    (resolvePage t fm ls).filter (fun m => m.fieldKey == k) = [] := by
  rw [List.filter_eq_nil_iff]
  intro m hm
  rw [resolvePage, List.mem_filterMap] at hm
  obtain ⟨kv, _, hr⟩ := hm
  by_cases hk : kv.1 = k
  · rw [hk, resolveKey_eq_none h] at hr
    cases hr
  · rw [beq_iff_eq, resolveKey_fieldKey hr]
    exact hk

theorem length_filter_key_le_one {α : Type} (f : α → Text)
    (ms : List α) (k : Text) (h : (ms.map f).Nodup) :
    (ms.filter (fun m => f m == k)).length ≤ 1 := by
  induction ms with
  | nil => simp
  | cons m ms ih =>
    rw [List.map_cons, List.nodup_cons] at h
    by_cases hk : f m = k
    · subst hk
      rw [List.filter_cons, if_pos (by simp)]
      have hnil : ms.filter (fun x => f x == f m) = [] := by
        rw [List.filter_eq_nil_iff]
        intro a ha hfa
        rw [beq_iff_eq] at hfa
        exact h.1 (List.mem_map.mpr ⟨a, ha, hfa⟩)
      rw [hnil]
      simp
    · rw [List.filter_cons, if_neg (by simp [hk])]
      exact ih h.2

theorem foldl_placeNext_length (cfg : PlacementConfig) (ps acc : List Placement) :
    (ps.foldl (placeNext cfg) acc).length = acc.length + ps.length := by
  induction ps generalizing acc with
  | nil => simp
  | cons p ps ih =>
    rw [List.foldl_cons, ih]
    unfold placeNext
    split <;>
      (simp only [List.length_append, List.length_cons, List.length_nil]; omega)

theorem resolveCollisions_length (cfg : PlacementConfig) (ps : List Placement) :
    (resolveCollisions cfg ps).length = ps.length := by
  unfold resolveCollisions
  rw [foldl_placeNext_length]
  simp

theorem processPages_getElem (dc : DocConfig) (lines : List TextLine)
    (i : Nat) (ss : List (Option PageSurface)) (j : Nat) :
    (processPages dc lines i ss)[j]? = (ss[j]?).map (processPage dc lines (i + j)) := by
  induction ss generalizing i j with
  | nil => simp [processPages]
  | cons s ss ih =>
    cases j with
    | zero => simp [processPages]
    | succ j =>
      rw [processPages, List.getElem?_cons_succ, List.getElem?_cons_succ, ih]
      have hij : i + 1 + j = i + (j + 1) := by omega
      rw [hij]

theorem processPages_length (dc : DocConfig) (lines : List TextLine)
    (i : Nat) (ss : List (Option PageSurface)) :
    (processPages dc lines i ss).length = ss.length := by
  induction ss generalizing i with
  | nil => rfl
  | cons s ss ih =>
    rw [processPages, List.length_cons, List.length_cons, ih]

/-! Claim theorems -/

/-- C1: the coordinate flip y_new = page_height - y - height is an
involution — applying it twice returns the original box — and the Overlay
Compositor applies the flip exactly once to each overlay box crossing
origin conventions. -/
theorem c1_flip_involution :
    (∀ (pageHeight : Int) (b : Box),
        flipBox pageHeight (flipBox pageHeight b) = b)
    ∧ ∀ (pg : PageSurface) (hls : List HighlightBox) (pls : List Placement),
        (compositePage pg hls pls).content
          = pg.content
            ++ hls.map (fun h => DrawCmd.highlightRect (flipBox pg.height h.box))
            ++ pls.map (fun p => DrawCmd.textAt p.text (flipBox pg.height p.box)) := by
  constructor
  · intro pageHeight b
    cases b
    simp only [flipBox]
    congr 1
    ring
  · intro pg hls pls
    rfl

/-- C9: the Overlay Compositor keeps the page dimensions, preserves the
original content as an unmodified prefix beneath the overlays, and draws
every highlight rectangle before every placement text. -/
theorem c9_compositor_shape :
    ∀ (pg : PageSurface) (hls : List HighlightBox) (pls : List Placement),
      (compositePage pg hls pls).width = pg.width
      ∧ (compositePage pg hls pls).height = pg.height
      ∧ pg.content <+: (compositePage pg hls pls).content
      ∧ (compositePage pg hls pls).content
          = pg.content
            ++ (hls.map (highlightCmd pg.height) ++ pls.map (placementCmd pg.height)) := by
  intro pg hls pls
  refine ⟨rfl, rfl, ?_, by rw [compositePage, List.append_assoc]⟩
  rw [compositePage, List.append_assoc]
  exact List.prefix_append _ _

/-- C10: the visitors route handler either responds success with status 200
and at most the 100 most recent non-empty log lines newest first, or, when
the read fails, responds with status 500 and success false; it is a total
function of its input. -/
theorem c10_visitors_route :
    ∀ file : Option Text,
      (file = none
        ∧ visitorsHandler file = { status := 500, success := false, logs := [] })
      ∨ ∃ content, file = some content
          ∧ (visitorsHandler file).status = 200
          ∧ (visitorsHandler file).success = true
          ∧ (visitorsHandler file).logs.length ≤ 100
          ∧ (visitorsHandler file).logs
              = ((visitorLogLines content).drop
                  ((visitorLogLines content).length - 100)).reverse := by
  intro file
  cases file with
  | none => exact Or.inl ⟨rfl, rfl⟩
  | some content =>
    refine Or.inr ⟨content, rfl, rfl, rfl, ?_, rfl⟩
    show (((visitorLogLines content).drop
        ((visitorLogLines content).length - 100)).reverse).length ≤ 100
    rw [List.length_reverse, List.length_drop]
    omega

/-- C4: for a match not near the right margin, the placement sits
immediately to the right of the label box, vertically centred on it, offset
by the gap plus the label width, its width the estimated rendered width
clipped to the space remaining before the right margin. -/
theorem c4_placement_right_of_label
    (cfg : PlacementConfig) (pageWidth : Int) (value : Text) (label : Box)
    (h : cfg.minSpace ≤ pageWidth - cfg.rightMargin - (label.x + label.width + cfg.gap)) :
    (placeValue cfg pageWidth value label).text = value
    ∧ (placeValue cfg pageWidth value label).box.x = label.x + label.width + cfg.gap
    ∧ (placeValue cfg pageWidth value label).box.y = label.y
    ∧ (placeValue cfg pageWidth value label).box.height = label.height
    ∧ (placeValue cfg pageWidth value label).box.width
        = min (estimatedWidth cfg value)
            (pageWidth - cfg.rightMargin - (label.x + label.width + cfg.gap))
    ∧ (pageWidth - cfg.rightMargin - (label.x + label.width + cfg.gap)
          < estimatedWidth cfg value →
        (placeValue cfg pageWidth value label).box.width
          = pageWidth - cfg.rightMargin - (label.x + label.width + cfg.gap))
    ∧ (placeValue cfg pageWidth value label).box.x
        + (placeValue cfg pageWidth value label).box.width
        ≤ pageWidth - cfg.rightMargin := by
  simp only [placeValue]
  rw [if_neg (not_lt.mpr h)]
  refine ⟨rfl, rfl, rfl, rfl, rfl, ?_, ?_⟩
  · intro hlt
    exact min_eq_right (le_of_lt hlt)
  · show label.x + label.width + cfg.gap
        + min (estimatedWidth cfg value)
            (pageWidth - cfg.rightMargin - (label.x + label.width + cfg.gap))
        ≤ pageWidth - cfg.rightMargin
    have hmin := min_le_right (estimatedWidth cfg value)
      (pageWidth - cfg.rightMargin - (label.x + label.width + cfg.gap))
    omega

/-- Witness for C4 at the spec scenario: label box (10,10,100,20), value
555-1234, nominal configuration, page width 612. -/
theorem c4_placement_right_of_label_witness :
    (⟨4, 36, 6, 14, 60⟩ : PlacementConfig).minSpace
      ≤ 612 - (⟨4, 36, 6, 14, 60⟩ : PlacementConfig).rightMargin
        - ((10 : Int) + 100 + (⟨4, 36, 6, 14, 60⟩ : PlacementConfig).gap)
    ∧ (placeValue ⟨4, 36, 6, 14, 60⟩ 612 ("555-1234".toList)
        ⟨10, 10, 100, 20⟩).box.x = 10 + 100 + 4 :=
  ⟨by decide,
   (c4_placement_right_of_label ⟨4, 36, 6, 14, 60⟩ 612 ("555-1234".toList)
      ⟨10, 10, 100, 20⟩ (by decide)).2.1⟩

/-- C5: a label within the fixed distance of the right margin makes the
engine place the value directly below the label instead of to the right;
the computation is total. -/
theorem c5_placement_fallback_below
    (cfg : PlacementConfig) (pageWidth : Int) (value : Text) (label : Box)
    (h : pageWidth - cfg.rightMargin - (label.x + label.width + cfg.gap)
          < cfg.minSpace) :
    (placeValue cfg pageWidth value label).text = value
    ∧ (placeValue cfg pageWidth value label).box.x = label.x
    ∧ (placeValue cfg pageWidth value label).box.y = label.y + label.height := by
  simp only [placeValue]
  rw [if_pos h]
  exact ⟨rfl, rfl, rfl⟩

/-- Witness for C5: a label at the right edge of a 612-wide page falls back
to the below-the-label position. -/
theorem c5_placement_fallback_below_witness :
    (612 : Int) - (⟨4, 36, 6, 14, 60⟩ : PlacementConfig).rightMargin
        - ((580 : Int) + 30 + (⟨4, 36, 6, 14, 60⟩ : PlacementConfig).gap)
      < (⟨4, 36, 6, 14, 60⟩ : PlacementConfig).minSpace
    ∧ (placeValue ⟨4, 36, 6, 14, 60⟩ 612 ("555-1234".toList)
        ⟨580, 700, 30, 20⟩).box.y = 700 + 20 :=
  ⟨by decide,
   (c5_placement_fallback_below ⟨4, 36, 6, 14, 60⟩ 612 ("555-1234".toList)
      ⟨580, 700, 30, 20⟩ (by decide)).2.2⟩

/-- C6: whenever the second of two placements in reading order would
overlap the first — same vertical band, intersecting horizontal ranges —
the collision policy shifts it downward by exactly one line-height
increment; in the two-key scenario, where both placements share the band
and fit within one line-height, the output placements do not overlap. -/
theorem c6_collision_shift
    (cfg : PlacementConfig) (p1 p2 : Placement)
    (hov : boxesOverlap p1.box p2.box = true) :
    resolveCollisions cfg [p1, p2] = [p1, shiftDown cfg.lineHeight p2]
    ∧ (p1.box.y = p2.box.y → p1.box.height ≤ cfg.lineHeight →
        boxesOverlap p1.box (shiftDown cfg.lineHeight p2).box = false) := by
  constructor
  · unfold resolveCollisions
    simp [placeNext, hov]
  · intro hy hh
    have hno : ¬ (p2.box.y + cfg.lineHeight < p1.box.y + p1.box.height) := by
      omega
    simp [boxesOverlap, vOverlap, hOverlap, shiftDown, hno]

/-- Witness for C6: two overlapping placements on the same band, the second
is shifted down by the line height and no longer overlaps the first. -/
theorem c6_collision_shift_witness :
    boxesOverlap (⟨0, 0, 50, 14⟩ : Box) (⟨10, 0, 50, 14⟩ : Box) = true
    ∧ resolveCollisions ⟨4, 36, 6, 14, 60⟩
        [⟨"a".toList, ⟨0, 0, 50, 14⟩⟩, ⟨"b".toList, ⟨10, 0, 50, 14⟩⟩]
        = [⟨"a".toList, ⟨0, 0, 50, 14⟩⟩, shiftDown 14 ⟨"b".toList, ⟨10, 0, 50, 14⟩⟩]
    ∧ boxesOverlap (⟨0, 0, 50, 14⟩ : Box)
        (shiftDown 14 (⟨"b".toList, ⟨10, 0, 50, 14⟩⟩ : Placement)).box = false :=
  ⟨by decide,
   (c6_collision_shift ⟨4, 36, 6, 14, 60⟩
      ⟨"a".toList, ⟨0, 0, 50, 14⟩⟩ ⟨"b".toList, ⟨10, 0, 50, 14⟩⟩ (by decide)).1,
   (c6_collision_shift ⟨4, 36, 6, 14, 60⟩
      ⟨"a".toList, ⟨0, 0, 50, 14⟩⟩ ⟨"b".toList, ⟨10, 0, 50, 14⟩⟩
      (by decide)).2 (by decide) (by decide)⟩

/-- C2: on a page the resolver acts on at most one match per field key, the
matched line is the first in reading order whose normalised text contains a
synonym phrasing, and the number of emitted placements equals, hence never
exceeds, the number of distinct matched field keys. -/
theorem c2_resolver_first_match
    (table : SynonymTable) (fm : FillMap) (lines : List TextLine)
    (hnd : (fm.map Prod.fst).Nodup) :
    (∀ k : Text,
        ((resolvePage table fm lines).filter (fun m => m.fieldKey == k)).length ≤ 1)
    ∧ (∀ m ∈ resolvePage table fm lines,
        lineHasAnySyn (synonymsFor table m.fieldKey) m.line = true
        ∧ ∃ pre post, lines = pre ++ m.line :: post
            ∧ ∀ l2 ∈ pre, lineHasAnySyn (synonymsFor table m.fieldKey) l2 = false)
    ∧ ∀ (cfg : PlacementConfig) (pageWidth : Int),
        (placePage cfg pageWidth fm (resolvePage table fm lines)).length
          = (((resolvePage table fm lines).map (fun m => m.fieldKey)).dedup).length := by
  have hkeys : ((resolvePage table fm lines).map (fun m => m.fieldKey)).Nodup :=
    List.Nodup.sublist (resolvePage_keys_sublist table fm lines) hnd
  refine ⟨?_, ?_, ?_⟩
  · intro k
    exact length_filter_key_le_one (fun m : Match => m.fieldKey) _ k hkeys
  · intro m hm
    rw [resolvePage, List.mem_filterMap] at hm
    obtain ⟨kv, _, hr⟩ := hm
    have hspec := resolveKey_spec hr
    rw [hspec.1]
    exact ⟨hspec.2.1, hspec.2.2⟩
  · intro cfg pageWidth
    rw [placePage, resolveCollisions_length, List.length_map, hkeys.dedup,
      List.length_map]

/-- Witness for C2 at the spec scenario: synonym table phone/telephone, one
Telephone line, FillMap with one phone entry. -/
theorem c2_resolver_first_match_witness :
    ([(("phone".toList : Text), ("555-1234".toList : Text))].map Prod.fst).Nodup
    ∧ ((resolvePage [⟨"phone".toList, ["phone".toList, "telephone".toList]⟩]
          [("phone".toList, "555-1234".toList)]
          [⟨"Telephone: ".toList, ⟨10, 10, 100, 20⟩, 0⟩]).filter
          (fun m => m.fieldKey == "phone".toList)).length ≤ 1 :=
  ⟨by decide,
   (c2_resolver_first_match [⟨"phone".toList, ["phone".toList, "telephone".toList]⟩]
      [("phone".toList, "555-1234".toList)]
      [⟨"Telephone: ".toList, ⟨10, 10, 100, 20⟩, 0⟩] (by decide)).1 ("phone".toList)⟩

/-- C3: a highlight box is emitted for a line and a term exactly when the
lower-cased line text contains the lower-cased term, each occurrence yields
its own box, and a term absent from every line yields zero boxes. -/
theorem c3_highlight_substring :
    (∀ (term : Text) (l : TextLine),
        highlightLine term l ≠ [] ↔ lowerText term <:+: lowerText l.text)
    ∧ (∀ (term : Text) (l : TextLine),
        (highlightLine term l).length
          = (occurrencePositions (lowerText term) (lowerText l.text)).length)
    ∧ ∀ (terms : List Text) (lines : List TextLine) (t : Text),
        (∀ l2 ∈ lines, ¬ lowerText t <:+: lowerText l2.text) →
        (locateHighlights terms lines).filter (fun h => h.term == t) = [] := by
  refine ⟨?_, ?_, ?_⟩
  · intro term l
    rw [highlightLine, ne_eq, List.map_eq_nil_iff, ← ne_eq]
    exact occurrencePositions_ne_nil_iff _ _
  · intro term l
    rw [highlightLine, List.length_map]
  · intro terms lines t habs
    rw [List.filter_eq_nil_iff]
    intro h hmem
    rw [locateHighlights, List.mem_flatMap] at hmem
    obtain ⟨l2, hl2, hmem⟩ := hmem
    rw [List.mem_flatMap] at hmem
    obtain ⟨t2, _, hmem⟩ := hmem
    rw [highlightLine, List.mem_map] at hmem
    obtain ⟨i, hi, rfl⟩ := hmem
    rw [beq_iff_eq]
    intro he
    have ht : t2 = t := he
    subst ht
    exact habs l2 hl2
      ((occurrencePositions_ne_nil_iff _ _).mp (List.ne_nil_of_mem hi))

/-- Witness for C3: the term email occurs in no line of the page, so the
locator emits no box for it. -/
theorem c3_highlight_substring_witness :
    (locateHighlights ["signature".toList]
        [⟨"Patient Signature: ____".toList, ⟨0, 0, 100, 10⟩, 0⟩]).filter
      (fun h => h.term == "email".toList) = [] :=
  c3_highlight_substring.2.2 ["signature".toList]
    [⟨"Patient Signature: ____".toList, ⟨0, 0, 100, 10⟩, 0⟩]
    ("email".toList) (by decide)

/-- C7: a FillMap key matching no line of the document yields no match and
no placement for that key on any page, the document still processes without
failure, and the key is recorded as an informational omission. -/
theorem c7_unmatched_key_skipped
    (dc : DocConfig) (d : DocInput) (lines : List TextLine) (k : Text)
    (hnorm : normalizeDoc d.surfaces.length d.units = .ok lines)
    (habs : ∀ l ∈ lines, lineHasAnySyn (synonymsFor dc.table k) l = false)
    (hmem : k ∈ dc.fm.map Prod.fst) :
    (∃ r, processDoc dc d = .ok r ∧ k ∈ r.omissions)
    ∧ (∀ i, (resolvePage dc.table dc.fm (linesOnPage lines i)).filter
          (fun m => m.fieldKey == k) = [])
    ∧ ∀ (cfg : PlacementConfig) (pageWidth : Int) (i : Nat),
        (placePage cfg pageWidth dc.fm
            (resolvePage dc.table dc.fm (linesOnPage lines i))).length
          = (resolvePage dc.table dc.fm (linesOnPage lines i)).length := by
  refine ⟨?_, ?_, ?_⟩
  · refine ⟨⟨processPages dc lines 0 d.surfaces, docOmissions dc lines⟩, ?_, ?_⟩
    · unfold processDoc
      rw [hnorm]
    · apply List.mem_append_left
      rw [List.mem_filter]
      refine ⟨hmem, ?_⟩
      rw [resolveKey_eq_none habs]
      rfl
  · intro i
    apply resolvePage_filter_key_eq_nil
    intro l hl
    exact habs l (List.mem_of_mem_filter hl)
  · intro cfg pageWidth i
    rw [placePage, resolveCollisions_length, List.length_map]

/-- Witness for C7: a document with one Name line and a FillMap phone key
matching nothing; the document processes and the key is an omission. -/
theorem c7_unmatched_key_skipped_witness :
    ∃ r, processDoc
        ⟨[⟨"phone".toList, ["phone".toList]⟩],
         [("phone".toList, "555".toList)], [], ⟨4, 36, 6, 14, 60⟩⟩
        ⟨[some ⟨612, 792, []⟩],
         [⟨"Name: ".toList, some ⟨10, 10, 100, 20⟩, 0⟩]⟩ = .ok r
      ∧ "phone".toList ∈ r.omissions :=
  (c7_unmatched_key_skipped
    ⟨[⟨"phone".toList, ["phone".toList]⟩],
     [("phone".toList, "555".toList)], [], ⟨4, 36, 6, 14, 60⟩⟩
    ⟨[some ⟨612, 792, []⟩],
     [⟨"Name: ".toList, some ⟨10, 10, 100, 20⟩, 0⟩]⟩
    [⟨"Name: ".toList, ⟨10, 10, 100, 20⟩, 0⟩]
    ("phone".toList) (by rfl) (by decide) (by decide)).1

/-- C8: per-page failures are isolated — each page entry of an ok document
result is a function of that page alone, a missing surface is reported as a
render failure for that page only, a normalizer failure aborts only its own
document within a batch, and a document never fails silently: processing
always returns either an explicit error or a result listing every page. -/
theorem c8_failure_isolation (dc : DocConfig) (d : DocInput) :
    (∀ r : DocResult, processDoc dc d = .ok r →
        r.pages.length = d.surfaces.length
        ∧ (∀ i : Nat, d.surfaces[i]? = some none →
            r.pages[i]? = some (.error .renderFailure))
        ∧ ∀ (d2 : DocInput) (r2 : DocResult) (i : Nat),
            d2.units = d.units → d2.surfaces.length = d.surfaces.length →
            processDoc dc d2 = .ok r2 → d2.surfaces[i]? = d.surfaces[i]? →
            r2.pages[i]? = r.pages[i]?)
    ∧ (∀ (docs : List DocInput) (i : Nat),
        (processBatch dc docs)[i]? = (docs[i]?).map (processDoc dc))
    ∧ ((∃ e, processDoc dc d = .error e) ∨ ∃ r, processDoc dc d = .ok r) := by
  refine ⟨?_, ?_, ?_⟩
  · intro r hr
    unfold processDoc at hr
    cases hn : normalizeDoc d.surfaces.length d.units with
    | error e => rw [hn] at hr; cases hr
    | ok lines =>
      rw [hn] at hr
      injection hr with hr
      subst hr
      refine ⟨processPages_length dc lines 0 d.surfaces, ?_, ?_⟩
      · intro i hi
        show (processPages dc lines 0 d.surfaces)[i]? = _
        rw [processPages_getElem, hi]
        rfl
      · intro d2 r2 i hu hlen h2 hs
        unfold processDoc at h2
        have hn2 : normalizeDoc d2.surfaces.length d2.units = .ok lines := by
          rw [hu, hlen]
          exact hn
        rw [hn2] at h2
        injection h2 with h2
        subst h2
        show (processPages dc lines 0 d2.surfaces)[i]?
          = (processPages dc lines 0 d.surfaces)[i]?
        rw [processPages_getElem, processPages_getElem, hs]
  · intro docs i
    rw [processBatch, List.getElem?_map]
  · cases hn : normalizeDoc d.surfaces.length d.units with
    | error e =>
      left
      refine ⟨e, ?_⟩
      unfold processDoc
      rw [hn]
    | ok lines =>
      right
      refine ⟨⟨processPages dc lines 0 d.surfaces, docOmissions dc lines⟩, ?_⟩
      unfold processDoc
      rw [hn]

/-- Witness for C8: a one-page document whose only surface is missing
processes to an ok result reporting a render failure for that page. -/
theorem c8_failure_isolation_witness :
    processDoc ⟨[], [], [], ⟨0, 0, 0, 0, 0⟩⟩ ⟨[none], []⟩
        = .ok ⟨[Except.error PageErr.renderFailure], []⟩
    ∧ (⟨[Except.error PageErr.renderFailure], []⟩ : DocResult).pages[0]?
        = some (Except.error PageErr.renderFailure) :=
  ⟨by rfl,
   ((c8_failure_isolation ⟨[], [], [], ⟨0, 0, 0, 0, 0⟩⟩ ⟨[none], []⟩).1
      ⟨[Except.error PageErr.renderFailure], []⟩ (by rfl)).2.1 0 (by rfl)⟩

end PdfHighlighter
